import Mathlib

/-
Verification of the mycroft-gui session-synchronization client.

The embedding below follows src/import/abstractskillview.cpp and
src/import/mycroftcontroller.cpp.  JSON values are modelled by `JsonValue`;
the Qt containers QVariantMap / QJsonObject / QHash are modelled by
association lists with unique keys.  The state mutated by
`AbstractSkillView::onGuiSocketMessageReceived` is `SkillViewState`; each
branch of that dispatcher is embedded as one `handle…` function returning
the new state together with a flag recording whether the branch bailed out
with a reported error (qWarning followed by return).

Functions living in files that are not part of src/ (activeskillsmodel.cpp,
sessiondatamap.cpp) are modelled from the specification; each such
definition carries a doc comment starting with "Modelled from the spec:".
-/

namespace MycroftGui

/-- JSON values as decoded by QJsonDocument.  Objects keep their fields as an
association list with unique keys (QJsonObject collapses duplicates). -/
inductive JsonValue where
  | null
  | bool (b : Bool)
  | num (n : Int)
  | str (s : String)
  | arr (items : List JsonValue)
  | obj (fields : List (String × JsonValue))

/-- A row of a row-collection: the QVariantMap of one array entry. -/
abbrev Row := List (String × JsonValue)

/-- Lookup in an association list (QMap / QHash access). -/
def assocLookup {α : Type} : List (String × α) → String → Option α
  | [], _ => none
  | (k', v) :: rest, k => if k' = k then some v else assocLookup rest k

/-- Insert-or-replace in an association list (QMap / QQmlPropertyMap insert). -/
def assocSet {α : Type} : List (String × α) → String → α → List (String × α)
  | [], k, v => [(k, v)]
  | (k', v') :: rest, k, v =>
      if k' = k then (k, v) :: rest else (k', v') :: assocSet rest k v

/-- Remove a key from an association list (QMap::remove). -/
def assocErase {α : Type} (m : List (String × α)) (k : String) : List (String × α) :=
  m.filter (fun kv => kv.1 ≠ k)

/-- `QVariant::value<QVariantList>()` on a JSON-decoded variant: a JSON array
yields its items, any other value yields the empty list. -/
def asList : JsonValue → List JsonValue
  | .arr items => items
  | _ => []

/-- `QJsonValue::toString()`: non-strings yield the empty string. -/
def jsonToStringOrEmpty : JsonValue → String
  | .str s => s
  | _ => ""

/-- `variantListToOrderedMap` (abstractskillview.cpp:166-187).  Walks the
array; a non-object entry logs "Array data structure corrupted" and returns
the rows accumulated so far (the C++ `return ordMap;` inside the loop does
not clear).  The Bool records whether that corruption warning fired.  The
role-name mismatch warning in the source is log-only and does not affect the
result, so it is not modelled. -/
def variantListToOrderedMap : List JsonValue → List Row × Bool
  | [] => ([], false)
  | .obj fields :: rest =>
      let r := variantListToOrderedMap rest
      (fields :: r.1, r.2)
  | _ :: _ => ([], true)

/-- Helper for `jsonModelToStringList` (the loop body of
abstractskillview.cpp:199-216): `none` models the `items.clear(); return`
paths (non-object entry, or key set not exactly the expected key); a
non-string value only warns and contributes `toString()` = "". -/
def modelItems (key : String) : List JsonValue → Option (List String)
  | [] => some []
  | .obj [(k, v)] :: rest =>
      if k = key then (modelItems key rest).map (fun tl => jsonToStringOrEmpty v :: tl)
      else none
  | _ :: _ => none

/-- `jsonModelToStringList` (abstractskillview.cpp:189-219): non-array data
yields []; any entry that is not a one-key object with exactly `key` clears
everything and yields []. -/
def jsonModelToStringList (key : String) (data : JsonValue) : List String :=
  match data with
  | .arr items => (modelItems key items).getD []
  | _ => []

/-- A value stored in a skill's SessionDataMap: either a SessionDataModel
holding ordered rows, or the raw QVariant stored wholesale. -/
inductive SessionValue where
  | model (rows : List Row)
  | plain (v : JsonValue)

/-- A registered delegate handle, identified by (skillId, qmlUrl) as set in
abstractskillview.cpp:348-349. -/
structure Delegate where
  skillId : String
  qmlUrl : String
  deriving DecidableEq, Repr

/-- The state mutated by `AbstractSkillView::onGuiSocketMessageReceived`:
the ActiveSkillsModel row list, the `m_skillData` hash (skillId to
SessionDataMap), and the delegates registered in the ActiveSkillsModel. -/
structure SkillViewState where
  activeSkills : List String
  skillData : List (String × List (String × SessionValue))
  delegates : List Delegate

/-- `AbstractSkillView::sessionDataForSkill` (abstractskillview.cpp:152-164):
returns the existing map, or creates an empty one when the skill is active;
`none` models the nullptr result for an inactive skill with no entry. -/
def sessionDataForSkill (st : SkillViewState) (skillId : String) :
    Option (List (String × SessionValue)) × SkillViewState :=
  match assocLookup st.skillData skillId with
  | some m => (some m, st)
  | none =>
      if skillId ∈ st.activeSkills then
        (some [], { st with skillData := assocSet st.skillData skillId [] })
      else (none, st)

/-- One iteration of the mycroft.session.set property loop
(abstractskillview.cpp:261-282): convert the value to rows; a non-empty row
list replaces the property by a model holding exactly those rows (new model,
or existing model cleared and refilled — same resulting rows); an empty row
list deletes any existing model and stores the raw value wholesale. -/
def updateProperty (m : List (String × SessionValue)) (key : String)
    (v : JsonValue) : List (String × SessionValue) :=
  let rows := (variantListToOrderedMap (asList v)).1
  if rows.isEmpty then assocSet m key (.plain v)
  else assocSet m key (.model rows)

/-- The mycroft.session.set branch (abstractskillview.cpp:241-282).  The
Bool is true exactly on the early-return error paths (empty skillId,
inactive skillId, empty data). -/
def handleSessionSet (st : SkillViewState) (skillId : String)
    (data : List (String × JsonValue)) : SkillViewState × Bool :=
  if skillId = "" then (st, true)
  else if skillId ∉ st.activeSkills then (st, true)
  else if data.isEmpty then (st, true)
  else
    let m0 := (assocLookup st.skillData skillId).getD []
    let m1 := data.foldl (fun m kv => updateProperty m kv.1 kv.2) m0
    ({ st with skillData := assocSet st.skillData skillId m1 }, false)

/-- Modelled from the spec: `SessionDataMap::clearAndNotify`
(sessiondatamap.cpp is not in src/).  Spec section 4.3: deleteProperty is a
no-op with a reported error if the property is unset; otherwise it removes
that property, leaving other properties untouched. -/
def clearAndNotify (m : List (String × SessionValue)) (property : String) :
    List (String × SessionValue) × Bool :=
  match assocLookup m property with
  | none => (m, true)
  | some _ => (assocErase m property, false)

/-- The mycroft.session.delete branch (abstractskillview.cpp:285-301):
bails out on empty skillId, inactive skillId, empty property; then calls
`sessionDataForSkill` (which materialises an empty entry for an active skill
that has none) and `clearAndNotify`. -/
def handleSessionDelete (st : SkillViewState) (skillId property : String) :
    SkillViewState × Bool :=
  if skillId = "" then (st, true)
  else if skillId ∉ st.activeSkills then (st, true)
  else if property = "" then (st, true)
  else
    let r0 := sessionDataForSkill st skillId
    let m0 := r0.1.getD []
    let r := clearAndNotify m0 property
    ({ r0.2 with skillData := assocSet r0.2.skillData skillId r.1 }, r.2)

/-- Outcome of instantiating the QML delegate component for a url: the
environment-provided result of `QQmlComponent` creation
(abstractskillview.cpp:332-341). -/
inductive InstOutcome where
  | ok
  | loadError
  deriving DecidableEq, Repr

/-- Signals emitted by the mycroft.gui.show branch: whether
`currentRequested` ("bring to foreground") fired, and whether the branch
bailed out with a reported error. -/
structure ShowOutput where
  foreground : Bool
  errorReported : Bool
  deriving DecidableEq, Repr

/-- Modelled from the spec: `ActiveSkillsModel::delegateForSkill`
(activeskillsmodel.cpp is not in src/).  Spec section 3: a delegate is
uniquely identified by (SkillId, viewTemplateUrl); this returns the
registered delegate for the pair, if any. -/
def delegateForSkill (ds : List Delegate) (skillId url : String) : Option Delegate :=
  ds.find? (fun d => d.skillId == skillId && d.qmlUrl == url)

/-- The mycroft.gui.show branch (abstractskillview.cpp:306-354): bails out
on empty skillId or empty gui_url; an existing delegate for the pair only
gets `currentRequested`; otherwise the component is instantiated — on load
error the branch returns with nothing registered, on success the session
data entry is created if the skill is active and absent
(`setSessionData(sessionDataForSkill(skillId))`), the new delegate is
registered (`insertDelegate`, modelled from the spec as appending to the
registry since activeskillsmodel.cpp is not in src/) and `currentRequested`
is emitted. -/
def handleGuiShow (st : SkillViewState) (skillId url : String)
    (outcome : InstOutcome) : SkillViewState × ShowOutput :=
  if skillId = "" then (st, ⟨false, true⟩)
  else if url = "" then (st, ⟨false, true⟩)
  else
    match delegateForSkill st.delegates skillId url with
    | some _ => (st, ⟨true, false⟩)
    | none =>
        match outcome with
        | .loadError => (st, ⟨false, true⟩)
        | .ok =>
            let st1 := (sessionDataForSkill st skillId).2
            ({ st1 with delegates := st1.delegates ++ [⟨skillId, url⟩] },
             ⟨true, false⟩)

/-- The mycroft.session.insert branch (abstractskillview.cpp:364-379):
position out of [0, rowCount] or an empty parsed skill list is a reported
error with no mutation; otherwise the skills are inserted at the position
(`ActiveSkillsModel::insertSkills`, modelled from the spec: "Inserts in
order at position, shifting subsequent entries right", activeskillsmodel.cpp
is not in src/). -/
def handleSessionInsert (st : SkillViewState) (position : Int)
    (data : JsonValue) : SkillViewState × Bool :=
  if position < 0 ∨ position > (st.activeSkills.length : Int) then (st, true)
  else
    let skillList := jsonModelToStringList "skill_id" data
    if skillList.isEmpty then (st, true)
    else
      ({ st with activeSkills :=
            st.activeSkills.take position.toNat ++ skillList ++
              st.activeSkills.drop position.toNat }, false)

/-- The mycroft.session.remove branch (abstractskillview.cpp:383-409).
Bounds exactly as in the source: position in [0, rowCount-1] and
itemsNumber in [0, rowCount - position - 1].  The cleanup loop erases the
`m_skillData` entry of every removed skill; then
`ActiveSkillsModel::removeRows` removes the rows (modelled from the spec,
activeskillsmodel.cpp is not in src/: a delegate is destroyed when its
owning skill is removed from ActiveSkillList). -/
def handleSessionRemove (st : SkillViewState) (position itemsNumber : Int) :
    SkillViewState × Bool :=
  if position < 0 ∨ position > (st.activeSkills.length : Int) - 1 then (st, true)
  else if itemsNumber < 0 ∨
      itemsNumber > (st.activeSkills.length : Int) - position - 1 then (st, true)
  else
    let removed := (st.activeSkills.drop position.toNat).take itemsNumber.toNat
    ({ activeSkills :=
          st.activeSkills.take position.toNat ++
            st.activeSkills.drop (position.toNat + itemsNumber.toNat),
       skillData := st.skillData.filter (fun kv => kv.1 ∉ removed),
       delegates := st.delegates.filter (fun d => d.skillId ∉ removed) }, false)

/-- Modelled from the spec: `ActiveSkillsModel::delegatesForSkill`
(activeskillsmodel.cpp is not in src/).  Spec section 2: "routes named
events to delegates scoped to a skill or broadcast to all"; the dispatcher
passes the empty string for the "system" broadcast. -/
def delegatesForSkill (ds : List Delegate) (skillId : String) : List Delegate :=
  if skillId = "" then ds else ds.filter (fun d => d.skillId == skillId)

/-- The mycroft.events.triggered branch (abstractskillview.cpp:435-461):
bails out on empty namespace, on a non-"system" namespace that is not an
active skill, and on empty event_name; otherwise returns the delegates that
receive the `event` signal (all of them for "system", the skill's own
otherwise).  The state is never mutated by this branch. -/
def handleEventsTriggered (st : SkillViewState) (ns eventName : String) :
    List Delegate × Bool :=
  if ns = "" then ([], true)
  else if ns ≠ "system" ∧ ns ∉ st.activeSkills then ([], true)
  else if eventName = "" then ([], true)
  else (delegatesForSkill st.delegates (if ns = "system" then "" else ns), false)

/-- The property value a skill currently holds, read through `m_skillData`. -/
def propertyValue (st : SkillViewState) (skillId key : String) : Option SessionValue :=
  match assocLookup st.skillData skillId with
  | none => none
  | some m => assocLookup m key

/-- QAbstractSocket::SocketState as used by MycroftController. -/
inductive SocketState where
  | UnconnectedState
  | HostLookupState
  | ConnectingState
  | ConnectedState
  | BoundState
  | ClosingState
  | ListeningState
  deriving DecidableEq, Repr

/-- MycroftController::Status. -/
inductive Status where
  | Closed
  | Connecting
  | Open
  | Closing
  deriving DecidableEq, Repr

/-- `MycroftController::status` (mycroftcontroller.cpp:118-139): an armed
reconnect timer forces Connecting; otherwise the status is derived from the
socket state, with the switch default mapping to Connecting. -/
def controllerStatus (reconnectTimerActive : Bool) (s : SocketState) : Status :=
  if reconnectTimerActive then .Connecting
  else
    match s with
    | .ConnectingState => .Connecting
    | .BoundState => .Connecting
    | .HostLookupState => .Connecting
    | .UnconnectedState => .Closed
    | .ConnectedState => .Open
    | .ClosingState => .Closing
    | .ListeningState => .Connecting

/-- `MycroftController::sendRequest` (mycroftcontroller.cpp:92-99): only
logs and returns when the socket is not in ConnectedState; otherwise the
payload is transmitted. -/
def sendRequest (s : SocketState) (json : JsonValue) : Option JsonValue :=
  if s ≠ .ConnectedState then none else some json

/-- The message built by `MycroftController::sendText`
(mycroftcontroller.cpp:101-109). -/
def utteranceMessage (text : String) : JsonValue :=
  .obj [("type", .str "recognizer_loop:utterance"),
        ("data", .obj [("utterances", .arr [.str text])])]

/-- `MycroftController::sendText`: builds the utterance message and hands it
to `sendRequest`. -/
def sendText (s : SocketState) (text : String) : Option JsonValue :=
  sendRequest s (utteranceMessage text)

def c1State : SkillViewState := ⟨["a", "b", "c"], [], []⟩

def c2Prev : List Row := [[("day", .str "Mon")], [("day", .str "Tue")]]

def c2State : SkillViewState :=
  ⟨["weather"], [("weather", [("forecast", .model c2Prev)])], []⟩

def c2Value : JsonValue := .arr [.obj [("day", .str "Wed")], .str "bad"]

def c2Data : List (String × JsonValue) := [("forecast", c2Value)]

def c3State : SkillViewState :=
  ⟨["weather"], [("weather", [("", .plain (.num 5)), ("temp", .plain (.num 7))])], []⟩

/-- An entry of a mycroft.session.insert data array that the parser
accepts: an object with exactly one key, the expected one
(abstractskillview.cpp:206). -/
def validModelEntry (key : String) : JsonValue → Bool
  | .obj [(k, _)] => k == key
  | _ => false

/-- The value a mycroft.session.set property loop iteration stores for a
property with incoming value `v`: a model of the converted rows when there
are any, the raw value wholesale otherwise. -/
def transformValue (v : JsonValue) : SessionValue :=
  if (variantListToOrderedMap (asList v)).1.isEmpty then .plain v
  else .model (variantListToOrderedMap (asList v)).1

theorem assocLookup_assocSet_self {α : Type} (m : List (String × α)) (k : String) (v : α) :
    assocLookup (assocSet m k v) k = some v := by
  induction m with
  | nil => simp [assocSet, assocLookup]
  | cons hd tl ih =>
      obtain ⟨k0, v0⟩ := hd
      by_cases h0 : k0 = k
      · simp [assocSet, h0, assocLookup]
      · simp [assocSet, h0, assocLookup, ih]

theorem assocLookup_assocSet_ne {α : Type} (m : List (String × α)) (k k' : String) (v : α)
    (h : k' ≠ k) : assocLookup (assocSet m k v) k' = assocLookup m k' := by
  induction m with
  | nil => simp [assocSet, assocLookup, Ne.symm h]
  | cons hd tl ih =>
      obtain ⟨k0, v0⟩ := hd
      by_cases h0 : k0 = k
      · subst h0
        simp [assocSet, assocLookup, h, Ne.symm h]
      · by_cases h1 : k0 = k'
        · subst h1
          simp [assocSet, assocLookup, h0, h, Ne.symm h0]
        · simp [assocSet, assocLookup, h0, h1, ih]

theorem assocSet_lookup_eq_self {α : Type} (m : List (String × α)) (k : String) (v : α)
    (h : assocLookup m k = some v) : assocSet m k v = m := by
  induction m with
  | nil => simp [assocLookup] at h
  | cons hd tl ih =>
      obtain ⟨k0, v0⟩ := hd
      by_cases h0 : k0 = k
      · subst h0
        simp [assocLookup] at h
        simp [assocSet, h]
      · simp [assocLookup, h0] at h
        simp [assocSet, h0, ih h]

theorem assocLookup_assocErase_self {α : Type} (m : List (String × α)) (k : String) :
    assocLookup (assocErase m k) k = none := by
  induction m with
  | nil => rfl
  | cons hd tl ih =>
      obtain ⟨k0, v0⟩ := hd
      by_cases h0 : k0 = k
      · simpa [assocErase, List.filter_cons, h0] using ih
      · simpa [assocErase, List.filter_cons, h0, assocLookup] using ih

theorem assocLookup_assocErase_ne {α : Type} (m : List (String × α)) (k k' : String)
    (h : k' ≠ k) : assocLookup (assocErase m k) k' = assocLookup m k' := by
  induction m with
  | nil => rfl
  | cons hd tl ih =>
      obtain ⟨k0, v0⟩ := hd
      by_cases h0 : k0 = k
      · subst h0
        simpa [assocErase, List.filter_cons, assocLookup, Ne.symm h] using ih
      · by_cases h1 : k0 = k'
        · subst h1
          simp [assocErase, List.filter_cons, h0, assocLookup]
        · simpa [assocErase, List.filter_cons, h0, assocLookup, h1] using ih

theorem assocLookup_filter_not_mem {α : Type} (m : List (String × α)) (R : List String)
    (s : String) (h : s ∈ R) :
    assocLookup (m.filter (fun kv => kv.1 ∉ R)) s = none := by
  induction m with
  | nil => rfl
  | cons hd tl ih =>
      obtain ⟨k0, v0⟩ := hd
      by_cases h0 : k0 ∈ R
      · simpa [List.filter_cons, h0] using ih
      · have hne : k0 ≠ s := fun he => h0 (he ▸ h)
        simpa [List.filter_cons, h0, assocLookup, hne] using ih

theorem filter_eq_nil_of_find?_none {α : Type} (p : α → Bool) (l : List α)
    (h : l.find? p = none) : l.filter p = [] := by
  rw [List.find?_eq_none] at h
  induction l with
  | nil => rfl
  | cons hd tl ih =>
      have hp : p hd = false := by simpa using h hd (List.mem_cons_self hd tl)
      have htl : ∀ x ∈ tl, ¬ p x = true := fun x hx => h x (List.mem_cons_of_mem hd hx)
      simp [List.filter_cons, hp, ih htl]

theorem find?_append_of_none {α : Type} (p : α → Bool) (l l' : List α)
    (h : l.find? p = none) : (l ++ l').find? p = l'.find? p := by
  rw [List.find?_eq_none] at h
  induction l with
  | nil => rfl
  | cons hd tl ih =>
      have hp : p hd = false := by simpa using h hd (List.mem_cons_self hd tl)
      have htl : ∀ x ∈ tl, ¬ p x = true := fun x hx => h x (List.mem_cons_of_mem hd hx)
      simp [List.find?_cons, hp, ih htl]

theorem assocLookup_updateProperty_self (m : List (String × SessionValue))
    (k : String) (v : JsonValue) :
    assocLookup (updateProperty m k v) k = some (transformValue v) := by
  unfold updateProperty transformValue
  by_cases h : (variantListToOrderedMap (asList v)).1.isEmpty <;>
    simp [h, assocLookup_assocSet_self]

theorem assocLookup_updateProperty_ne (m : List (String × SessionValue))
    (k k' : String) (v : JsonValue) (h : k' ≠ k) :
    assocLookup (updateProperty m k v) k' = assocLookup m k' := by
  unfold updateProperty
  by_cases hr : (variantListToOrderedMap (asList v)).1.isEmpty <;>
    simp [hr, assocLookup_assocSet_ne _ _ _ _ h]

theorem foldl_updateProperty_not_mem (l : List (String × JsonValue))
    (m : List (String × SessionValue)) (k : String) (h : k ∉ l.map Prod.fst) :
    assocLookup (l.foldl (fun m kv => updateProperty m kv.1 kv.2) m) k =
      assocLookup m k := by
  induction l generalizing m with
  | nil => rfl
  | cons hd tl ih =>
      simp only [List.map_cons, List.mem_cons] at h
      push_neg at h
      rw [List.foldl_cons, ih _ h.2, assocLookup_updateProperty_ne _ _ _ _ h.1]

theorem foldl_updateProperty_mem (l : List (String × JsonValue))
    (m : List (String × SessionValue)) (k : String) (v : JsonValue)
    (hmem : (k, v) ∈ l) (hnd : (l.map Prod.fst).Nodup) :
    assocLookup (l.foldl (fun m kv => updateProperty m kv.1 kv.2) m) k =
      some (transformValue v) := by
  induction l generalizing m with
  | nil => cases hmem
  | cons hd tl ih =>
      simp only [List.map_cons, List.nodup_cons] at hnd
      rcases List.mem_cons.mp hmem with he | ht
      · rw [List.foldl_cons]
        have hk : k ∉ tl.map Prod.fst := by
          have : hd.1 = k := by rw [← he]
          rw [← this]; exact hnd.1
        rw [foldl_updateProperty_not_mem _ _ _ hk, ← he]
        exact assocLookup_updateProperty_self m k v
      · rw [List.foldl_cons]
        exact ih _ ht hnd.2

/-- Master lemma for the mycroft.session.set branch: for a valid update of
an active skill, the stored value of each updated property is determined by
its incoming value alone (rows model when conversion produced rows, raw
value otherwise). -/
theorem sessionSet_propertyValue (st : SkillViewState) (skillId : String)
    (data : List (String × JsonValue)) (k : String) (v : JsonValue)
    (hid : skillId ≠ "") (hact : skillId ∈ st.activeSkills)
    (hmem : (k, v) ∈ data) (hnd : (data.map Prod.fst).Nodup) :
    propertyValue (handleSessionSet st skillId data).1 skillId k =
      some (transformValue v) := by
  have hne : data ≠ [] := by rintro rfl; cases hmem
  have hempty : data.isEmpty = false := by
    cases data with
    | nil => exact absurd rfl hne
    | cons a l => rfl
  unfold handleSessionSet
  rw [if_neg hid, if_neg (by simpa using hact)]
  rw [if_neg (by simp [hempty])]
  simp only [propertyValue, assocLookup_assocSet_self]
  exact foldl_updateProperty_mem data _ k v hmem hnd

theorem sessionDataForSkill_delegates (st : SkillViewState) (skillId : String) :
    (sessionDataForSkill st skillId).2.delegates = st.delegates := by
  unfold sessionDataForSkill
  cases h : assocLookup st.skillData skillId with
  | some m => rfl
  | none =>
      by_cases ha : skillId ∈ st.activeSkills <;> simp [ha]

theorem handleGuiShow_found (st : SkillViewState) (skillId url : String)
    (outcome : InstOutcome) (d : Delegate)
    (hskill : skillId ≠ "") (hurl : url ≠ "")
    (hfound : delegateForSkill st.delegates skillId url = some d) :
    handleGuiShow st skillId url outcome = (st, ⟨true, false⟩) := by
  unfold handleGuiShow
  rw [if_neg hskill, if_neg hurl, hfound]

theorem modelItems_eq_none_of_invalid (key : String) (items : List JsonValue)
    (bad : JsonValue) (hmem : bad ∈ items)
    (hbad : validModelEntry key bad = false) :
    modelItems key items = none := by
  induction items with
  | nil => cases hmem
  | cons hd tl ih =>
      rcases List.mem_cons.mp hmem with he | ht
      · subst he
        cases bad with
        | null => rfl
        | bool b => rfl
        | num n => rfl
        | str s => rfl
        | arr xs => rfl
        | obj fields =>
            rcases fields with _ | ⟨⟨k, v⟩, _ | ⟨p2, t⟩⟩
            · rfl
            · have hk : ¬ k = key := by simpa [validModelEntry] using hbad
              simp [modelItems, hk]
            · rfl
      · cases hd with
        | null => rfl
        | bool b => rfl
        | num n => rfl
        | str s => rfl
        | arr xs => rfl
        | obj fields =>
            rcases fields with _ | ⟨⟨k, v⟩, _ | ⟨p2, t⟩⟩
            · rfl
            · by_cases hk : k = key
              · simp [modelItems, hk, ih ht]
              · simp [modelItems, hk]
            · rfl

/-- C1: evaluation at the failing input.  With 3 active skills the code
rejects removing the last skill (position=2, items_number=1) although
1 lies in [0, length - position] = [0, 1]; the in-claim scenario
(position=1, items_number=5 rejected) does hold, but the claimed acceptance
of every count up to length - position does not: count = 2 at position 1 is
also rejected.  The bound in the source is items_number <= length -
position - 1. -/
theorem C1_remove_count_bound_eval :
    handleSessionRemove c1State 2 1 = (c1State, true) ∧
    ((0 : Int) ≤ 1 ∧ (1 : Int) ≤ 3 - 2) ∧
    handleSessionRemove c1State 1 2 = (c1State, true) ∧
    ((0 : Int) ≤ 2 ∧ (2 : Int) ≤ 3 - 1) ∧
    handleSessionRemove c1State 1 5 = (c1State, true) ∧
    (handleSessionRemove c1State 1 1).2 = false :=
  ⟨rfl, by decide, rfl, by decide, rfl, rfl⟩

/-- C2 counterexample: skill "weather" is active and its property
"forecast" holds the row-collection [[day=Mon], [day=Tue]]; a
mycroft.session.set arrives whose "forecast" array is [object day=Wed,
"bad"] — its second entry is not an object, and the corruption warning
fires — yet the update is not aborted: the previous contents are replaced
by the single row [day=Wed].  The claim's "previous row-collection contents
are preserved unchanged" is false at this input. -/
theorem C2_counterexample :
    propertyValue c2State "weather" "forecast" = some (.model c2Prev) ∧
    (variantListToOrderedMap (asList c2Value)).2 = true ∧
    propertyValue (handleSessionSet c2State "weather" c2Data).1 "weather" "forecast" =
      some (.model [[("day", .str "Wed")]]) ∧
    propertyValue (handleSessionSet c2State "weather" c2Data).1 "weather" "forecast" ≠
      some (.model c2Prev) := by
  refine ⟨rfl, rfl, rfl, ?_⟩
  intro h
  rw [show propertyValue (handleSessionSet c2State "weather" c2Data).1 "weather"
        "forecast" = some (.model [[("day", JsonValue.str "Wed")]]) from rfl] at h
  simp [c2Prev] at h

/-- C2 (amended): a non-object row-collection entry makes the conversion
stop at the first such entry with a reported corruption error, and the
property's previous contents are replaced rather than preserved: the
property is set to exactly the rows converted before the offending entry
when at least one exists, and otherwise the raw incoming value is stored
wholesale (that is the value `transformValue v`). -/
theorem C2_corrupt_entry_replaces (st : SkillViewState) (skillId : String)
    (data : List (String × JsonValue)) (k : String) (v : JsonValue)
    (prevRows : List Row)
    (hid : skillId ≠ "") (hact : skillId ∈ st.activeSkills)
    (_hprev : propertyValue st skillId k = some (.model prevRows))
    (hmem : (k, v) ∈ data) (hnd : (data.map Prod.fst).Nodup)
    (_hcorrupt : (variantListToOrderedMap (asList v)).2 = true) :
    propertyValue (handleSessionSet st skillId data).1 skillId k =
      some (transformValue v) :=
  sessionSet_propertyValue st skillId data k v hid hact hmem hnd

/-- C2 witness: the amended theorem applied at the counterexample input. -/
theorem C2_corrupt_entry_replaces_witness :
    propertyValue (handleSessionSet c2State "weather" c2Data).1 "weather" "forecast" =
      some (transformValue c2Value) :=
  C2_corrupt_entry_replaces c2State "weather" c2Data "forecast" c2Value c2Prev
    (by decide) (by simp [c2State]) rfl (by simp [c2Data]) (by simp [c2Data]) rfl

/-- C3 counterexample: skill "weather" is active and its property named ""
is currently set (reachable via mycroft.session.set with data key "") —
the claim's "otherwise" case — yet mycroft.session.delete with property ""
is a no-op with a reported error instead of removing the property. -/
theorem C3_counterexample :
    propertyValue c3State "weather" "" = some (.plain (.num 5)) ∧
    handleSessionDelete c3State "weather" "" = (c3State, true) :=
  ⟨rfl, rfl⟩

/-- C3 (amended): deleteProperty is a no-op with a reported error whenever
skillId is empty or not active or the property name is empty; when skillId
is active and the (non-empty) property is not currently set it reports an
error and changes nothing except materialising an empty SessionStore entry
for that skill if none existed (the assocSet with the existing-or-empty map
below); otherwise it removes exactly that property and leaves every other
property of the skill and every other skill's entry unchanged, with no
error. -/
theorem C3_delete_characterization (st : SkillViewState) (skillId property : String) :
    (skillId = "" ∨ skillId ∉ st.activeSkills ∨ property = "" →
      handleSessionDelete st skillId property = (st, true)) ∧
    (skillId ≠ "" → skillId ∈ st.activeSkills → property ≠ "" →
      propertyValue st skillId property = none →
      handleSessionDelete st skillId property =
        ({ st with skillData :=
             assocSet st.skillData skillId ((assocLookup st.skillData skillId).getD []) },
         true)) ∧
    (skillId ≠ "" → skillId ∈ st.activeSkills → property ≠ "" →
      ∀ vOld, propertyValue st skillId property = some vOld →
      (handleSessionDelete st skillId property).2 = false ∧
      propertyValue (handleSessionDelete st skillId property).1 skillId property = none ∧
      (∀ k, k ≠ property →
        propertyValue (handleSessionDelete st skillId property).1 skillId k =
          propertyValue st skillId k) ∧
      (∀ s, s ≠ skillId →
        assocLookup (handleSessionDelete st skillId property).1.skillData s =
          assocLookup st.skillData s) ∧
      (handleSessionDelete st skillId property).1.activeSkills = st.activeSkills ∧
      (handleSessionDelete st skillId property).1.delegates = st.delegates) := by
  refine ⟨?_, ?_, ?_⟩
  · rintro (h | h | h)
    · unfold handleSessionDelete
      rw [if_pos h]
    · unfold handleSessionDelete
      by_cases h0 : skillId = ""
      · rw [if_pos h0]
      · rw [if_neg h0, if_pos h]
    · unfold handleSessionDelete
      by_cases h0 : skillId = ""
      · rw [if_pos h0]
      · rw [if_neg h0]
        by_cases h1 : skillId ∉ st.activeSkills
        · rw [if_pos h1]
        · rw [if_neg h1, if_pos h]
  · intro hid hact hprop hnone
    unfold handleSessionDelete
    rw [if_neg hid, if_neg (by simpa using hact), if_neg hprop]
    unfold sessionDataForSkill
    cases hl : assocLookup st.skillData skillId with
    | some m =>
        have hm : assocLookup m property = none := by
          unfold propertyValue at hnone
          rw [hl] at hnone
          exact hnone
        simp [clearAndNotify, hm, hl]
    | none =>
        rw [if_pos hact]
        simp [clearAndNotify, assocLookup, hl]
        exact assocSet_lookup_eq_self _ _ _ (assocLookup_assocSet_self st.skillData skillId [])
  · intro hid hact hprop vOld hsome
    have hl : ∃ m, assocLookup st.skillData skillId = some m ∧
        assocLookup m property = some vOld := by
      unfold propertyValue at hsome
      cases hl : assocLookup st.skillData skillId with
      | none => rw [hl] at hsome; cases hsome
      | some m => rw [hl] at hsome; exact ⟨m, rfl, hsome⟩
    obtain ⟨m, hl, hm⟩ := hl
    have hres : handleSessionDelete st skillId property =
        ({ st with skillData := assocSet st.skillData skillId (assocErase m property) },
         false) := by
      unfold handleSessionDelete
      rw [if_neg hid, if_neg (by simpa using hact), if_neg hprop]
      unfold sessionDataForSkill
      rw [hl]
      simp [clearAndNotify, hm]
    rw [hres]
    refine ⟨rfl, ?_, ?_, ?_, rfl, rfl⟩
    · simp only [propertyValue, assocLookup_assocSet_self]
      exact assocLookup_assocErase_self m property
    · intro k hk
      simp only [propertyValue, assocLookup_assocSet_self, hl]
      exact assocLookup_assocErase_ne m property k hk
    · intro s hs
      exact assocLookup_assocSet_ne _ _ _ _ hs

/-- C3 witness: the amended theorem applied at concrete inputs — an empty
property name is rejected, and deleting a set property "p" of active skill
"w" removes it while preserving property "q". -/
theorem C3_delete_characterization_witness :
    handleSessionDelete c3State "weather" "" = (c3State, true) ∧
    (handleSessionDelete ⟨["w"], [("w", [("p", .plain .null), ("q", .num 3 |> .plain)])], []⟩
        "w" "p").2 = false ∧
    propertyValue (handleSessionDelete
        ⟨["w"], [("w", [("p", .plain .null), ("q", .num 3 |> .plain)])], []⟩ "w" "p").1
      "w" "p" = none ∧
    propertyValue (handleSessionDelete
        ⟨["w"], [("w", [("p", .plain .null), ("q", .num 3 |> .plain)])], []⟩ "w" "p").1
      "w" "q" =
      propertyValue ⟨["w"], [("w", [("p", .plain .null), ("q", .num 3 |> .plain)])], []⟩
        "w" "q" := by
  have h1 := (C3_delete_characterization c3State "weather" "").1 (Or.inr (Or.inr rfl))
  have h3 := (C3_delete_characterization
      ⟨["w"], [("w", [("p", .plain .null), ("q", .num 3 |> .plain)])], []⟩ "w" "p").2.2
      (by decide) (by simp) (by decide) (.plain .null) rfl
  exact ⟨h1, h3.1, h3.2.1, h3.2.2.1 "q" (by decide)⟩

/-- C4: a successful mycroft.session.remove leaves zero SessionStore
entries and zero delegates for every removed skill (the SessionStore
cleanup runs in the handler before the structural `removeRows`, which
destroys the removed skills' delegates). -/
theorem C4_remove_cascade_complete (st : SkillViewState) (position itemsNumber : Int)
    (s : String)
    (hok : (handleSessionRemove st position itemsNumber).2 = false)
    (hs : s ∈ (st.activeSkills.drop position.toNat).take itemsNumber.toNat) :
    assocLookup (handleSessionRemove st position itemsNumber).1.skillData s = none ∧
    ∀ d ∈ (handleSessionRemove st position itemsNumber).1.delegates, d.skillId ≠ s := by
  unfold handleSessionRemove at hok ⊢
  by_cases h1 : position < 0 ∨ position > (st.activeSkills.length : Int) - 1
  · rw [if_pos h1] at hok
    cases hok
  · rw [if_neg h1] at hok ⊢
    by_cases h2 : itemsNumber < 0 ∨
        itemsNumber > (st.activeSkills.length : Int) - position - 1
    · rw [if_pos h2] at hok
      cases hok
    · rw [if_neg h2]
      constructor
      · exact assocLookup_filter_not_mem st.skillData _ s hs
      · intro d hd
        have := List.of_mem_filter hd
        intro he
        rw [he] at this
        simp at this
        exact this hs

/-- C4 witness: removing position 1, count 1 from ["a", "b", "c"] removes
"b"; afterwards "b" has no SessionStore entry and no delegate. -/
theorem C4_remove_cascade_complete_witness :
    assocLookup (handleSessionRemove
        ⟨["a", "b", "c"], [("b", [])], [⟨"b", "u"⟩, ⟨"a", "w"⟩]⟩ 1 1).1.skillData "b" =
      none ∧
    ∀ d ∈ (handleSessionRemove
        ⟨["a", "b", "c"], [("b", [])], [⟨"b", "u"⟩, ⟨"a", "w"⟩]⟩ 1 1).1.delegates,
      d.skillId ≠ "b" :=
  C4_remove_cascade_complete
    ⟨["a", "b", "c"], [("b", [])], [⟨"b", "u"⟩, ⟨"a", "w"⟩]⟩ 1 1 "b" rfl (by simp)

/-- C5: applyUpdate (mycroft.session.set) is a no-op with a reported error
for an inactive skillId and for an empty property map; in particular it
never creates a SessionStore entry for an inactive skillId. -/
theorem C5_set_inactive_or_empty_noop (st : SkillViewState) (skillId : String)
    (data : List (String × JsonValue)) :
    (skillId ∉ st.activeSkills → handleSessionSet st skillId data = (st, true)) ∧
    (data = [] → handleSessionSet st skillId data = (st, true)) := by
  constructor
  · intro hinactive
    unfold handleSessionSet
    by_cases h0 : skillId = ""
    · rw [if_pos h0]
    · rw [if_neg h0, if_pos hinactive]
  · rintro rfl
    unfold handleSessionSet
    by_cases h0 : skillId = ""
    · rw [if_pos h0]
    · rw [if_neg h0]
      by_cases h1 : skillId ∉ st.activeSkills
      · rw [if_pos h1]
      · rw [if_neg h1]
        rfl

/-- C5 witness: inactive skill "x" with a non-empty map, and active skill
"y" with an empty map, both rejected without mutation. -/
theorem C5_witness :
    handleSessionSet ⟨["y"], [], []⟩ "x" [("a", .null)] = (⟨["y"], [], []⟩, true) ∧
    handleSessionSet ⟨["y"], [], []⟩ "y" [] = (⟨["y"], [], []⟩, true) :=
  ⟨(C5_set_inactive_or_empty_noop ⟨["y"], [], []⟩ "x" [("a", .null)]).1 (by simp),
   (C5_set_inactive_or_empty_noop ⟨["y"], [], []⟩ "y" []).2 rfl⟩

/-- C6: for non-empty identical arguments with no delegate yet registered
for the pair, the first mycroft.gui.show instantiates and registers exactly
one delegate and emits "bring to foreground"; a second show with the same
arguments leaves the state unchanged and emits the foreground signal again
(no second instantiation, whatever the environment would return); a failed
instantiation is reported and registers nothing. -/
theorem C6_show_registers_once (st : SkillViewState) (skillId url : String)
    (outcome2 : InstOutcome)
    (hskill : skillId ≠ "") (hurl : url ≠ "")
    (hnew : delegateForSkill st.delegates skillId url = none) :
    ((handleGuiShow st skillId url .ok).1.delegates.filter
        (fun d => d.skillId == skillId && d.qmlUrl == url)).length = 1 ∧
    (handleGuiShow st skillId url .ok).2 = ⟨true, false⟩ ∧
    handleGuiShow (handleGuiShow st skillId url .ok).1 skillId url outcome2 =
      ((handleGuiShow st skillId url .ok).1, ⟨true, false⟩) ∧
    handleGuiShow st skillId url .loadError = (st, ⟨false, true⟩) := by
  have hδ := sessionDataForSkill_delegates st skillId
  have h1 : handleGuiShow st skillId url .ok =
      ({ (sessionDataForSkill st skillId).2 with
          delegates := st.delegates ++ [⟨skillId, url⟩] }, ⟨true, false⟩) := by
    unfold handleGuiShow
    rw [if_neg hskill, if_neg hurl, hnew]
    simp [hδ]
  have hfind : st.delegates.find?
      (fun d => d.skillId == skillId && d.qmlUrl == url) = none := hnew
  refine ⟨?_, ?_, ?_, ?_⟩
  · rw [h1]
    simp only [List.filter_append, filter_eq_nil_of_find?_none _ _ hfind]
    simp
  · rw [h1]
  · have hfound : delegateForSkill (handleGuiShow st skillId url .ok).1.delegates
        skillId url = some ⟨skillId, url⟩ := by
      rw [h1]
      show delegateForSkill (st.delegates ++ [⟨skillId, url⟩]) skillId url =
        some ⟨skillId, url⟩
      unfold delegateForSkill
      rw [find?_append_of_none _ _ _ hfind]
      simp [List.find?_cons]
    exact handleGuiShow_found _ skillId url outcome2 ⟨skillId, url⟩ hskill hurl hfound
  · unfold handleGuiShow
    rw [if_neg hskill, if_neg hurl, hnew]

/-- C6 witness: showing skill "a" url "u" twice from an empty registry. -/
theorem C6_show_registers_once_witness :
    ((handleGuiShow ⟨["a"], [], []⟩ "a" "u" .ok).1.delegates.filter
        (fun d => d.skillId == "a" && d.qmlUrl == "u")).length = 1 ∧
    handleGuiShow (handleGuiShow ⟨["a"], [], []⟩ "a" "u" .ok).1 "a" "u" .ok =
      ((handleGuiShow ⟨["a"], [], []⟩ "a" "u" .ok).1, ⟨true, false⟩) ∧
    handleGuiShow ⟨["a"], [], []⟩ "a" "u" .loadError = (⟨["a"], [], []⟩, ⟨false, true⟩) := by
  have h := C6_show_registers_once ⟨["a"], [], []⟩ "a" "u" .ok
    (by decide) (by decide) rfl
  exact ⟨h.1, h.2.2.1, h.2.2.2⟩

/-- C7: mycroft.events.triggered with namespace "system" reaches every
registered delegate; any other namespace reaches exactly the delegates
owned by that skill when it is active, fails with a reported error and no
dispatch when it is not, and an empty event_name also fails with a reported
error and no dispatch.  The hypothesis that no registered delegate has an
empty skillId holds for every reachable registry, since mycroft.gui.show
rejects an empty namespace before registering. -/
theorem C7_dispatch_scoping (st : SkillViewState) (ns eventName : String)
    (hemp : ∀ d ∈ st.delegates, d.skillId ≠ "") :
    (eventName ≠ "" →
      handleEventsTriggered st "system" eventName = (st.delegates, false)) ∧
    (ns ≠ "system" → ns ∈ st.activeSkills → eventName ≠ "" →
      (handleEventsTriggered st ns eventName).1 =
        st.delegates.filter (fun d => d.skillId == ns)) ∧
    (ns ≠ "system" → ns ∉ st.activeSkills →
      handleEventsTriggered st ns eventName = ([], true)) ∧
    (eventName = "" → handleEventsTriggered st ns eventName = ([], true)) := by
  refine ⟨?_, ?_, ?_, ?_⟩
  · intro hev
    simp [handleEventsTriggered, delegatesForSkill, hev]
  · intro hns hact hev
    by_cases hns0 : ns = ""
    · subst hns0
      have : st.delegates.filter (fun d => d.skillId == "") = [] := by
        rw [List.filter_eq_nil_iff]
        intro d hd
        simp [hemp d hd]
      simp [handleEventsTriggered, this]
    · have hnc : ¬ (ns ≠ "system" ∧ ns ∉ st.activeSkills) := by
        rintro ⟨-, hna⟩
        exact hna hact
      simp [handleEventsTriggered, hns0, hnc, hev, delegatesForSkill, hns, hact]
  · intro hns hna
    by_cases hns0 : ns = ""
    · simp [handleEventsTriggered, hns0]
    · simp [handleEventsTriggered, hns0, hns, hna]
  · rintro rfl
    by_cases hns0 : ns = ""
    · simp [handleEventsTriggered, hns0]
    · by_cases hc : ns ≠ "system" ∧ ns ∉ st.activeSkills
      · simp [handleEventsTriggered, hns0, hc]
      · simp [handleEventsTriggered, hns0, hc]

/-- C7 witness: registry with delegates for skills "a" and "b", active
skill "a": broadcast reaches both, "a" reaches only its delegate, inactive
"zz" and empty event name are rejected with no dispatch. -/
theorem C7_dispatch_scoping_witness :
    handleEventsTriggered ⟨["a"], [], [⟨"a", "u"⟩, ⟨"b", "v"⟩]⟩ "system" "e" =
      ([⟨"a", "u"⟩, ⟨"b", "v"⟩], false) ∧
    (handleEventsTriggered ⟨["a"], [], [⟨"a", "u"⟩, ⟨"b", "v"⟩]⟩ "a" "e").1 =
      [⟨"a", "u"⟩] ∧
    handleEventsTriggered ⟨["a"], [], [⟨"a", "u"⟩, ⟨"b", "v"⟩]⟩ "zz" "e" = ([], true) ∧
    handleEventsTriggered ⟨["a"], [], [⟨"a", "u"⟩, ⟨"b", "v"⟩]⟩ "a" "" = ([], true) := by
  have hemp : ∀ d ∈ ([⟨"a", "u"⟩, ⟨"b", "v"⟩] : List Delegate), d.skillId ≠ "" := by
    decide
  refine ⟨(C7_dispatch_scoping _ "a" "e" hemp).1 (by decide),
    ((C7_dispatch_scoping _ "a" "e" hemp).2.1 (by decide) (by simp) (by decide)).trans
      (by decide),
    (C7_dispatch_scoping _ "zz" "e" hemp).2.2.1 (by decide) (by simp),
    (C7_dispatch_scoping _ "a" "" hemp).2.2.2 rfl⟩

/-- C8 counterexample: with the reconnect timer armed while the socket is
in ConnectedState — e.g. after calling start() on an already-connected
controller — the derived status is Connecting, not Open, yet sendText
still transmits the utterance message.  The claim "transmits nothing
whenever the derived connection status is not Open" is false there. -/
theorem C8_counterexample :
    controllerStatus true .ConnectedState ≠ .Open ∧
    sendText .ConnectedState "hello" = some (utteranceMessage "hello") :=
  ⟨by decide, rfl⟩

/-- C8 (amended): sendText transmits nothing exactly when the socket is not
in ConnectedState; with the reconnect timer inactive that coincides with
"derived status is not Open", and on transmit the payload is exactly the
recognizer_loop:utterance message carrying [text]. -/
theorem C8_send_gated_by_socket_state (timer : Bool) (s : SocketState) (text : String) :
    (sendText s text = none ↔ s ≠ .ConnectedState) ∧
    (timer = false → (controllerStatus timer s = .Open ↔ s = .ConnectedState)) ∧
    (s = .ConnectedState → sendText s text = some (utteranceMessage text)) := by
  refine ⟨?_, ?_, ?_⟩
  · by_cases h : s = .ConnectedState <;> simp [sendText, sendRequest, h]
  · rintro rfl
    cases s <;> simp [controllerStatus]
  · rintro rfl
    rfl

/-- C8 witness: the amended theorem at a connected and at an unconnected
socket. -/
theorem C8_send_gated_witness :
    sendText .ConnectedState "hi" = some (utteranceMessage "hi") ∧
    (controllerStatus false .UnconnectedState = .Open ↔
      SocketState.UnconnectedState = .ConnectedState) ∧
    sendText .UnconnectedState "hi" = none :=
  ⟨(C8_send_gated_by_socket_state false .ConnectedState "hi").2.2 rfl,
   (C8_send_gated_by_socket_state false .UnconnectedState "hi").2.1 rfl,
   (C8_send_gated_by_socket_state false .UnconnectedState "hi").1.mpr (by decide)⟩

/-- C9: a mycroft.session.insert whose data array contains any entry that
is not a one-key {skill_id} object is dropped whole with a reported error:
no skill at all is inserted, including those listed before the offending
entry (`jsonModelToStringList` clears the accumulated list). -/
theorem C9_insert_all_or_nothing (st : SkillViewState) (position : Int)
    (items : List JsonValue) (bad : JsonValue)
    (hmem : bad ∈ items) (hbad : validModelEntry "skill_id" bad = false) :
    handleSessionInsert st position (.arr items) = (st, true) := by
  have hnone := modelItems_eq_none_of_invalid "skill_id" items bad hmem hbad
  unfold handleSessionInsert
  by_cases h1 : position < 0 ∨ position > (st.activeSkills.length : Int)
  · rw [if_pos h1]
  · rw [if_neg h1]
    simp [jsonModelToStringList, hnone]

/-- C9 witness: a valid {skill_id} object followed by a non-object entry —
nothing is inserted. -/
theorem C9_insert_all_or_nothing_witness :
    handleSessionInsert ⟨["x"], [], []⟩ 0
      (.arr [.obj [("skill_id", .str "a")], .str "bad"]) = (⟨["x"], [], []⟩, true) :=
  C9_insert_all_or_nothing ⟨["x"], [], []⟩ 0
    [.obj [("skill_id", .str "a")], .str "bad"] (.str "bad")
    (List.mem_cons_of_mem _ (List.mem_cons_self _ _)) rfl

/-- C10: a property whose incoming value converts to an empty row list is
stored wholesale as an opaque value, never as a row-collection (any
existing model for the property is thereby replaced). -/
theorem C10_empty_rows_stored_wholesale (st : SkillViewState) (skillId : String)
    (data : List (String × JsonValue)) (k : String) (v : JsonValue)
    (hid : skillId ≠ "") (hact : skillId ∈ st.activeSkills)
    (hmem : (k, v) ∈ data) (hnd : (data.map Prod.fst).Nodup)
    (hrows : (variantListToOrderedMap (asList v)).1 = []) :
    propertyValue (handleSessionSet st skillId data).1 skillId k =
      some (.plain v) := by
  have h := sessionSet_propertyValue st skillId data k v hid hact hmem hnd
  rwa [transformValue, hrows] at h

/-- C10 witness: an active skill whose property held a model receives an
empty array; the raw empty array is stored wholesale. -/
theorem C10_witness :
    propertyValue
      (handleSessionSet ⟨["w"], [("w", [("p", .model [[("x", .num 1)]])])], []⟩
        "w" [("p", .arr [])]).1 "w" "p" = some (.plain (.arr [])) :=
  C10_empty_rows_stored_wholesale
    ⟨["w"], [("w", [("p", .model [[("x", .num 1)]])])], []⟩ "w"
    [("p", .arr [])] "p" (.arr [])
    (by decide) (by simp) (by simp) (by simp) rfl

end MycroftGui
